import Mathlib

/-!
Verification of the ap_warehouse finance pipeline (`src/pipe.py`, class
`FinancePipeline`) against its natural-language specification.

The development shallowly embeds the pipeline:
* pandas `DataFrame`s become lists of records (`Row`), with nullable cells
  as `Option`;
* the DuckDB database state becomes an explicit `DBState` (ledger table plus
  staging tables as association lists);
* the per-file load step becomes an `Except`-valued step: an in-transaction
  failure is rolled back and swallowed (the handler's ROLLBACK succeeds),
  while a pre-transaction failure escapes (the handler's ROLLBACK itself
  raises, having no open transaction) and stops the batch;
* fallible pandas operations (`validate=` merges, `errors="coerce"` parsing)
  become `Except` / `Option` values.
-/

namespace ApWarehouse

/-! ## String utilities

`fname.lower()` / `"pat" in fname` used by the file classifier
(`run_import`, step 2) and by the date-column scan in the committed-cost
gold makers. Substring containment is implemented directly on character
lists so that it is executable and easy to reason about.
-/

/-- Does the character list `s` start with the character list `pat`? -/
def charsStartWith : List Char → List Char → Bool
  | [], _ => true
  | _ :: _, [] => false
  | p :: ps, c :: cs => p == c && charsStartWith ps cs

/-- Does the character list `s` contain `pat` as a contiguous run? -/
def charsHaveSub (pat : List Char) : List Char → Bool
  | [] => charsStartWith pat []
  | c :: cs => charsStartWith pat (c :: cs) || charsHaveSub pat cs

/-- Python `pat in s` on strings. -/
def strHasSub (s pat : String) : Bool :=
  charsHaveSub pat.data s.data

/-- Python `s.lower()` (filenames and column names here are ASCII, for
which per-character lowering is exact). Defined on the character list so
it stays kernel-reducible. -/
def strLower (s : String) : String :=
  String.mk (s.data.map Char.toLower)

/-! ## File classifier

Embeds the categorization chain of `FinancePipeline.run_import`
(src/pipe.py lines 262-282): an if/elif chain of substring tests against
the lower-cased filename, appending into `master_tables`.
-/

/-- The if/elif classification chain of `run_import`, traced branch by
branch from the source. -/
def classify_file (fname : String) : String :=
  let f := (strLower fname)
  if strHasSub f "ccdet" then "cost_center_details"
  else if strHasSub f "commit_cc" then "commit_cc"
  else if strHasSub f "commit_wbs" then "commit_wbs"
  else if strHasSub f "wbs_budget" then "wbs_budget"
  else if strHasSub f "_le_" then "forecast_live_estimate"
  else if strHasSub f "_prebud_" then "forecast_pre_budget"
  else if strHasSub f "_bud_" then "forecast_budget"
  else if strHasSub f "_t0" then "forecast_trend"
  else "actuals"

/-- Ordered routing table, written as the spec describes it: a list of
(substring pattern, category) pairs in precedence order. -/
def ROUTING_RULES : List (String × String) :=
  [("ccdet", "cost_center_details"),
   ("commit_cc", "commit_cc"),
   ("commit_wbs", "commit_wbs"),
   ("wbs_budget", "wbs_budget"),
   ("_le_", "forecast_live_estimate"),
   ("_prebud_", "forecast_pre_budget"),
   ("_bud_", "forecast_budget"),
   ("_t0", "forecast_trend")]

/-- Modelled from the spec's words (section 4.2): apply the ordered rules
to the already lower-cased filename, first match wins, default `actuals`.
Used only to compare against `classify_file`. -/
def first_match_route_aux : List (String × String) → String → String
  | [], _ => "actuals"
  | (pat, cat) :: rest, f =>
      if strHasSub f pat then cat else first_match_route_aux rest f

/-- Spec-side classifier: ordered first-match routing over `ROUTING_RULES`
applied to the lower-cased filename. -/
def first_match_route (fname : String) : String :=
  first_match_route_aux ROUTING_RULES (strLower fname)

/-! ## Data model

A staging/gold record is modelled as a `Row` whose nullable cells are
`Option`s. Field names follow the canonical column names produced by
`COLUMN_RENAME`. Monetary and descriptive text columns that no claim
touches are left out of the record; free-form columns scanned by the
committed-cost date loop are kept generically in `cells`.
-/

/-- A calendar date as produced by `pd.to_datetime`. -/
structure Date where
  year : Nat
  month : Nat
  day : Nat
deriving DecidableEq, Repr

/-- A generic cell value: raw text, or a (possibly null, after coercion)
parsed date. -/
inductive CellVal where
  | text : String → CellVal
  | date : Option Date → CellVal
deriving DecidableEq, Repr

/-- One record of a staging or gold frame. -/
structure Row where
  cells : List (String × CellVal) := []
  wbsElementCode : Option String := none
  costCenterCode : Option String := none
  partnerCostCenterCode : Option String := none
  productCode : Option String := none
  glAccount : Option Int := none
  nativeGlAccount : Option Int := none
  profitCenterCode : Option String := none
  wbsTypeChar : Option String := none
  fiscalType : Option String := none
  compassCode : Option String := none
  scenario : Option String := none
deriving DecidableEq, Repr

/-- The `Series.fillna(other)` cell rule: keep the value when it is
non-null, otherwise fall back to `other`. -/
def fillna {α : Type} (a other : Option α) : Option α :=
  match a with
  | some v => some v
  | none => other

/-! ## Fiscal-type classification

Embeds `FinancePipeline.determine_fiscal_type` (src/pipe.py lines
218-230): `np.select(condlist, choicelist, default)`, whose documented
semantics is that the first condition in `condlist` that is true selects
the corresponding choice, with `default` when none is.
-/

/-- Semantics of `np.select` at one element: the first true condition
wins, otherwise the default. -/
def npSelect : List Bool → List String → String → String
  | c :: cs, v :: vs, d => if c then v else npSelect cs vs d
  | _, _, d => d

/-- The condition list of `determine_fiscal_type`, in source order:
`notna` becomes `isSome` and `isna` becomes `isNone`. -/
def determine_fiscal_type_conds (r : Row) : List Bool :=
  [r.wbsElementCode.isSome,
   r.costCenterCode.isSome || r.partnerCostCenterCode.isSome,
   r.wbsElementCode.isNone && r.productCode.isSome]

/-- Fiscal type of one record, via `np.select`. -/
def determine_fiscal_type_row (r : Row) : String :=
  npSelect (determine_fiscal_type_conds r) ["WBS", "COST CENTER", "NO WBS"]
    "FINANCE"

/-- Frame-level `determine_fiscal_type`: assigns the `Fiscal Type` column
on every record. -/
def determine_fiscal_type (rows : List Row) : List Row :=
  rows.map fun r => { r with fiscalType := some (determine_fiscal_type_row r) }

/-! ## Reference frames

The transformation consumes derived lookup frames built in
`run_transformation`. Their rows are modelled with the columns the gold
makers read. `wbs_enhanced` is the output of `enhance_wbs_elements`; the
forward-fill parent derivation is not needed by any claim, so the frame is
taken as given with the columns the joins consume (`WBS G/L Account`,
`WBS Profit Center Code`, `WBS Type Char`).
-/

/-- One row of the `wbs_enhanced` reference frame. -/
structure WbsEntry where
  wbsElementCode : String
  wbsGlAccount : Option Int
  wbsProfitCenterCode : Option String
  wbsTypeChar : Option String
deriving DecidableEq, Repr

/-- One row of the linked `gl_to_compass` frame (output of
`link_gl_to_compass`). -/
structure GlCompassEntry where
  glAccount : Int
  compassCode : Option String
deriving DecidableEq, Repr

/-- One row of the `cost_center_to_compass` frame (output of
`link_cost_center_to_compass`: Cost Center Code, Profit Center Code,
Compass Code). -/
structure CcCompassEntry where
  costCenterCode : String
  profitCenterCode : Option String
  compassCode : Option String
deriving DecidableEq, Repr

/-- The reference frames a gold maker consumes (the `meta_frames` bundle;
`compass_codes` and `profit_centers_to_signatures` only attach descriptive
text columns that no claim reads, so they are not carried). -/
structure TransMeta where
  wbsEnhanced : List WbsEntry
  glToCompass : List GlCompassEntry
  ccToCompass : List CcCompassEntry
deriving Repr

/-- Left-join lookup on `WBS Element Code` (first matching reference row,
as a `many_to_one`-validated merge yields). -/
def lookupWbs (tab : List WbsEntry) (k : String) : Option WbsEntry :=
  tab.find? fun e => e.wbsElementCode == k

/-- Left-join lookup of a compass code by `G/L Account`. -/
def lookupGlCompass (tab : List GlCompassEntry) (a : Int) : Option String :=
  (tab.find? fun e => e.glAccount == a).bind (·.compassCode)

/-- Left-join lookup on `Cost Center Code` into `cost_center_to_compass`. -/
def lookupCcCompass (tab : List CcCompassEntry) (c : String) :
    Option CcCompassEntry :=
  tab.find? fun e => e.costCenterCode == c

/-! ## WBS override sub-routine

Embeds `FinancePipeline.get_wbs_attributes` (src/pipe.py lines 232-249):
drop the stale WBS-derived columns, left-join `wbs_enhanced` on
`WBS Element Code`, keep the raw G/L account in `Native G/L Account`, and
let the WBS-derived G/L account and profit center override the raw values
via `fillna`.
-/

/-- The WBS-derived attributes joined onto one record: `none` when the
record has no WBS Element Code or the code has no reference row. -/
def wbs_joined (wbsTab : List WbsEntry) (r : Row) : Option WbsEntry :=
  r.wbsElementCode.bind (lookupWbs wbsTab)

/-- Per-record `get_wbs_attributes`. The dropped stale columns are exactly
the WBS-derived fields being overwritten here, so the overwrite models the
drop-then-merge. -/
def get_wbs_attributes_row (wbsTab : List WbsEntry) (r : Row) : Row :=
  let m := wbs_joined wbsTab r
  let wbsGl := m.bind (·.wbsGlAccount)
  let wbsPc := m.bind (·.wbsProfitCenterCode)
  { r with
    nativeGlAccount := r.glAccount,
    glAccount := fillna wbsGl r.glAccount,
    profitCenterCode := fillna wbsPc r.profitCenterCode,
    wbsTypeChar := m.bind (·.wbsTypeChar) }

/-- Frame-level `get_wbs_attributes`. -/
def get_wbs_attributes (wbsTab : List WbsEntry) (rows : List Row) :
    List Row :=
  rows.map (get_wbs_attributes_row wbsTab)

/-! ## GL-to-compass resolver

Embeds `FinancePipeline.link_gl_to_compass` (src/pipe.py lines 209-216):
`pd.merge(gl_accounts, gl_to_compass, how="left", on="G/L Account",
validate="one_to_one")`. A `validate="one_to_one"` merge raises
`MergeError` when the merge key is not unique on either side, before
producing any joined rows.
-/

/-- One row of the raw `gl_accounts` reference table. -/
structure GlAccountRow where
  glAccount : Int
  longText : Option String
deriving DecidableEq, Repr

/-- The `one_to_one`-validated left join of `link_gl_to_compass`:
`.error` models the `MergeError` pandas raises when either side's merge
key has duplicates, `.ok` the joined frame. -/
def link_gl_to_compass (gl_accounts : List GlAccountRow)
    (gl_to_compass : List (Int × String)) :
    Except String (List GlCompassEntry) :=
  if (gl_accounts.map (·.glAccount)).Nodup ∧
      (gl_to_compass.map (·.1)).Nodup then
    .ok (gl_accounts.map fun g =>
      { glAccount := g.glAccount,
        compassCode := (gl_to_compass.find? fun p => p.1 == g.glAccount).map
          (·.2) })
  else
    .error "MergeError: Merge keys are not unique, not a one-to-one merge"

/-! ## Fixed-format date coercion

Embeds the date loops of `make_gold_commit_wbs` (src/pipe.py lines
516-520) and `make_gold_commit_cc` (lines 552-556):
`pd.to_datetime(col, errors="coerce", format="%m/%d/%Y")` over every
column whose lower-cased name contains "date". The parser models strptime
with that single format: three slash-separated numeric fields read as
month/day/year, validated against the calendar; anything else yields null
(`errors="coerce"`), never an error.
-/

/-- Splits a character list on the slash separator. -/
def splitSlash : List Char → List (List Char)
  | [] => [[]]
  | c :: cs =>
      if c == '/' then [] :: splitSlash cs
      else
        match splitSlash cs with
        | g :: gs => (c :: g) :: gs
        | [] => [[c]]

/-- Reads a non-empty all-digit character list as a number. -/
def digitsToNat (cs : List Char) : Option Nat :=
  if cs ≠ [] ∧ cs.all Char.isDigit then
    some (cs.foldl (fun n c => n * 10 + (c.toNat - 48)) 0)
  else none

/-- Gregorian leap-year rule. -/
def isLeap (y : Nat) : Bool :=
  (y % 4 == 0 && y % 100 != 0) || y % 400 == 0

/-- Days in a month, leap years included. -/
def daysInMonth (y m : Nat) : Nat :=
  if m = 2 then (if isLeap y then 29 else 28)
  else if m = 4 ∨ m = 6 ∨ m = 9 ∨ m = 11 then 30
  else 31

/-- Parse a cell with the single fixed format %m/%d/%Y; `none` is the
`NaT` that `errors="coerce"` produces for anything else. -/
def parseDateMDY (s : String) : Option Date :=
  match splitSlash s.data with
  | [ms, ds, ys] =>
      match digitsToNat ms, digitsToNat ds, digitsToNat ys with
      | some m, some d, some y =>
          if 1 ≤ m ∧ m ≤ 12 ∧ 1 ≤ d ∧ d ≤ daysInMonth y m then
            some { year := y, month := m, day := d }
          else none
      | _, _, _ => none
  | _ => none

/-- Coerce one cell to a (possibly null) date. -/
def coerce_date_cell : CellVal → CellVal
  | .text s => .date (parseDateMDY s)
  | .date d => .date d

/-- The shared date loop of both committed-cost gold makers: every column
whose lower-cased name contains "date" is parsed with the fixed format,
other columns are untouched. -/
def coerce_commit_dates (r : Row) : Row :=
  { r with
    cells := r.cells.map fun p =>
      (p.1, if strHasSub (strLower p.1) "date" then coerce_date_cell p.2
        else p.2) }

/-! ## Gold makers

Per-category enrichment, one record at a time. The renames to canonical
column names are reflected in the `Row` field names; the monetary sign
inversion and the descriptive-text merges (`compass_codes`,
`profit_centers_to_signatures`) touch only columns outside the modelled
record.
-/

/-- The enrichment common to one actuals record in `make_gold_actuals`
(src/pipe.py lines 364-419): stamp the scenario, apply the WBS override,
merge the G/L compass code (renamed "G/L Compass Code"), merge the
cost-center compass mapping, then `Compass Code =
Compass Code.fillna(G/L Compass Code)` and `Profit Center Code =
native.fillna(cc)`. -/
def make_gold_actuals_enrich_row (meta : TransMeta) (r : Row) : Row :=
  let r1 := { r with scenario := some "Actuals" }
  let r2 := get_wbs_attributes_row meta.wbsEnhanced r1
  let glCompass := r2.glAccount.bind (lookupGlCompass meta.glToCompass)
  let ccEntry := r2.costCenterCode.bind (lookupCcCompass meta.ccToCompass)
  let ccCompass := ccEntry.bind (·.compassCode)
  let ccProfit := ccEntry.bind (·.profitCenterCode)
  { r2 with
    compassCode := fillna ccCompass glCompass,
    profitCenterCode := fillna r2.profitCenterCode ccProfit }

/-- The "M" carve-out of `make_gold_actuals` (src/pipe.py lines 431-439)
on one record: save the WBS Element Code in a temp column, clear it,
classify, restore it from the temp column, drop the temp column. -/
def make_gold_actuals_m_row (r : Row) : Row :=
  let temp := r.wbsElementCode
  let cleared := { r with wbsElementCode := none }
  let classified :=
    { cleared with fiscalType := some (determine_fiscal_type_row cleared) }
  { classified with wbsElementCode := temp }

/-- `make_gold_actuals` (src/pipe.py lines 347-441): enrich, split on
`WBS Type Char == "M"`, classify each side (the "M" side through the
carve-out), and concatenate "M" rows first. -/
def make_gold_actuals (meta : TransMeta) (rows : List Row) : List Row :=
  let enriched := rows.map (make_gold_actuals_enrich_row meta)
  let actuals_non_m := enriched.filter fun r => !(r.wbsTypeChar == some "M")
  let actuals_m := enriched.filter fun r => r.wbsTypeChar == some "M"
  let gold_actuals_non_m := determine_fiscal_type actuals_non_m
  let gold_actuals_m := actuals_m.map make_gold_actuals_m_row
  gold_actuals_m ++ gold_actuals_non_m

/-- One record of `make_gold_cc_details` (src/pipe.py lines 443-508): the
same enrichment as actuals with scenario "Cost Center Details" (the
profit-center fillna precedes the compass fillna in the source; the two
assignments are independent). -/
def make_gold_cc_details_row (meta : TransMeta) (r : Row) : Row :=
  let r1 := { r with scenario := some "Cost Center Details" }
  let r2 := get_wbs_attributes_row meta.wbsEnhanced r1
  let glCompass := r2.glAccount.bind (lookupGlCompass meta.glToCompass)
  let ccEntry := r2.costCenterCode.bind (lookupCcCompass meta.ccToCompass)
  let ccCompass := ccEntry.bind (·.compassCode)
  let ccProfit := ccEntry.bind (·.profitCenterCode)
  { r2 with
    compassCode := fillna ccCompass glCompass,
    profitCenterCode := fillna r2.profitCenterCode ccProfit }

/-- `make_gold_cc_details`: enrich every record, then standard
fiscal-type classification (no "M" carve-out). -/
def make_gold_cc_details (meta : TransMeta) (rows : List Row) : List Row :=
  determine_fiscal_type (rows.map (make_gold_cc_details_row meta))

/-- One record of `make_gold_commit_wbs` (src/pipe.py lines 510-545):
date coercion, fiscal type fixed to "WBS", profit center initialized
null, WBS override, compass by G/L account only. -/
def make_gold_commit_wbs_row (meta : TransMeta) (r : Row) : Row :=
  let r1 := coerce_commit_dates r
  let r2 := { r1 with fiscalType := some "WBS", profitCenterCode := none }
  let r3 := get_wbs_attributes_row meta.wbsEnhanced r2
  { r3 with compassCode := r3.glAccount.bind (lookupGlCompass meta.glToCompass) }

/-- One record of `make_gold_commit_cc` (src/pipe.py lines 547-585):
date coercion, fiscal type fixed to "COST CENTER", G/L compass merge
(renamed "G/L Compass Code"), cost-center compass merge, then
`Compass Code = Compass Code.fillna(G/L Compass Code)`. -/
def make_gold_commit_cc_row (meta : TransMeta) (r : Row) : Row :=
  let r1 := coerce_commit_dates r
  let r2 := { r1 with fiscalType := some "COST CENTER" }
  let glCompass := r2.glAccount.bind (lookupGlCompass meta.glToCompass)
  let ccCompass :=
    (r2.costCenterCode.bind (lookupCcCompass meta.ccToCompass)).bind
      (·.compassCode)
  { r2 with compassCode := fillna ccCompass glCompass }

/-! ## Transformation run

Embeds the gold assembly of `run_transformation` (src/pipe.py lines
587-837): it reads the `actuals`, `cost_center_details`, `commit_wbs` and
`commit_cc` staging tables, transforms each, stamps the committed results
with scenario "Committed", and concatenates. The staging state carries all
nine staging tables so that what the transformation does not read is
visible in the model.
-/

/-- The nine staging tables at transformation time. -/
structure StagingFrames where
  actuals : List Row := []
  cost_center_details : List Row := []
  commit_wbs : List Row := []
  commit_cc : List Row := []
  wbs_budget : List Row := []
  forecast_budget : List Row := []
  forecast_live_estimate : List Row := []
  forecast_pre_budget : List Row := []
  forecast_trend : List Row := []
deriving Repr

/-- The gold dataset produced by `run_transformation` (the partitioned
write and the Year/Month/Index columns are downstream of this list and
carry no scenario logic). -/
def run_transformation_gold (meta : TransMeta) (st : StagingFrames) :
    List Row :=
  let gold_actuals := make_gold_actuals meta st.actuals
  let gold_cc_details := make_gold_cc_details meta st.cost_center_details
  let gold_commit_wbs := st.commit_wbs.map (make_gold_commit_wbs_row meta)
  let gold_commit_cc := st.commit_cc.map (make_gold_commit_cc_row meta)
  let gold_committed := (gold_commit_wbs ++ gold_commit_cc).map fun r =>
    { r with scenario := some "Committed" }
  gold_actuals ++ gold_cc_details ++ gold_committed

/-- The empty reference bundle, used by concrete transformation runs. -/
def emptyTransMeta : TransMeta :=
  { wbsEnhanced := [], glToCompass := [], ccToCompass := [] }

/-- Reference bundle for the C3 evaluation: G/L account 100 maps to
compass code "A" and cost center "CC1" maps to compass code "B". -/
def compassClashMeta : TransMeta :=
  { wbsEnhanced := [],
    glToCompass := [{ glAccount := 100, compassCode := some "A" }],
    ccToCompass :=
      [{ costCenterCode := "CC1", profitCenterCode := none,
         compassCode := some "B" }] }

/-- A record carrying both G/L account 100 and cost center "CC1". -/
def compassClashRow : Row :=
  { glAccount := some 100, costCenterCode := some "CC1" }

/-- A record with its WBS Element Code cleared, as the carve-out does
before classifying. -/
def clear_wbs (r : Row) : Row :=
  { r with wbsElementCode := none }

/-- Concrete "M"-typed record with a non-null WBS Element Code, used by
the C5 witness. -/
def mCarveRow : Row :=
  { wbsElementCode := some "W9", costCenterCode := some "CC1",
    wbsTypeChar := some "M" }

/-- A staging state whose only data is one `forecast_budget` record. -/
def budgetOnlyState : StagingFrames :=
  { forecast_budget := [{ cells := [("Amount", .text "5")] }] }

/-! ## Ingestion: ledger, transactional loader, batch driver

Embeds `track_processed_files`, `get_new_files` and `run_import`
(src/pipe.py lines 138-344). The database is a ledger (the
`ingested_files` table, with `filename TEXT PRIMARY KEY`; created
idempotently, so it is modelled as always present) plus the staging
tables, an association list from table name to rows. A staged row is the
source filename (stamped `source_file`) paired with an abstract payload.

The per-file try block has two distinct failure regimes, and the model
keeps them apart:
* the work between `BEGIN TRANSACTION` and `COMMIT` (table creation, row
  insert, ledger insert) is an `Except`-valued unit; when it fails the
  except handler's `ROLLBACK` finds an active transaction, undoes the
  unit, and the loop continues with the next file;
* parsing (`pd.read_parquet` / `pd.read_csv`) and the `PartitionDate`
  derivation run before `BEGIN TRANSACTION` (src/pipe.py lines 293-324);
  when they raise, the handler executes `ROLLBACK` with no active
  transaction, DuckDB raises `TransactionContext Error: cannot rollback -
  no transaction is active`, nothing catches it, and `run_import` aborts:
  the remaining files of the batch are not processed. Loops therefore
  return the database state reached so far paired with the uncaught
  error, and `run_import`'s caller sees the abort.
-/

/-- The DuckDB error raised by the except handler's `ROLLBACK` when the
failure occurred before `BEGIN TRANSACTION`: it propagates out of
`run_import` uncaught. -/
def no_txn_rollback_msg : String :=
  "TransactionContext Error: cannot rollback - no transaction is active"

/-- A source data file: its name, its parsed rows (abstract payloads), and
whether reading it into a typed frame succeeds. -/
structure SrcFile where
  name : String
  rows : List Nat
  parseOk : Bool
deriving DecidableEq, Repr

/-- A staged row: `source_file` stamp and payload. -/
abbrev StagedRow := String × Nat

/-- The staging tables: name to stored rows. -/
abbrev Tables := List (String × List StagedRow)

/-- The database state: the `ingested_files` ledger and the staging
tables. -/
structure DBState where
  ledger : List String
  tables : Tables
deriving DecidableEq, Repr

/-- Names of the existing staging tables. -/
def tableKeys (ts : Tables) : List String :=
  ts.map (·.1)

/-- `CREATE TABLE IF NOT EXISTS {table_key} AS SELECT * FROM df_typed
WHERE 1=0`: adds an empty table when the name is absent. -/
def create_table_if_not_exists (ts : Tables) (cat : String) : Tables :=
  if ts.any (fun p => p.1 == cat) then ts else ts ++ [(cat, [])]

/-- `INSERT INTO {table_key} SELECT * FROM df_typed`: appends the rows to
the named table. -/
def insert_into (ts : Tables) (cat : String) (rs : List StagedRow) :
    Tables :=
  ts.map fun p => if p.1 = cat then (p.1, p.2 ++ rs) else p

/-- Reading one file into a typed frame and stamping `source_file`
(`pd.read_parquet` / `pd.read_csv`; the `PartitionDate` derivation adds a
column outside the abstract payload). -/
def parse_file (f : SrcFile) : Except String (List StagedRow) :=
  if f.parseOk then .ok (f.rows.map fun v => (f.name, v))
  else .error "parse error"

/-- `INSERT INTO ingested_files (filename) VALUES (?)`: fails on the
primary-key constraint when the filename is already ledgered. -/
def insert_ledger (db : DBState) (n : String) : Except String DBState :=
  if n ∈ db.ledger then .error "Constraint Error: duplicate key"
  else .ok { db with ledger := db.ledger ++ [n] }

/-- The in-transaction part of the per-file unit (src/pipe.py lines
326-337, `BEGIN TRANSACTION` to `COMMIT`): create the staging table if
absent, insert the already-parsed rows, record the filename in the
ledger. -/
def transaction_unit (db : DBState) (cat : String) (staged : List StagedRow)
    (n : String) : Except String DBState :=
  let ts1 := create_table_if_not_exists db.tables cat
  let ts2 := insert_into ts1 cat staged
  insert_ledger { db with tables := ts2 } n

/-- One file processed under try/except (src/pipe.py lines 291-344).
A pre-transaction failure (parse) reaches the handler with no transaction
open, so its `ROLLBACK` raises and the error escapes `run_import`
(`.error`). A failure inside the transaction is rolled back by the
handler and swallowed, leaving the database unchanged (`.ok db`); a
completed unit commits (`.ok db2`). -/
def load_one (db : DBState) (cat : String) (f : SrcFile) :
    Except String DBState :=
  match parse_file f with
  | .error _ => .error no_txn_rollback_msg
  | .ok staged =>
      match transaction_unit db cat staged f.name with
      | .ok db2 => .ok db2
      | .error _ => .ok db

/-- The inner loop over one category's file list: an escaping error stops
the loop, the remaining files are not processed. -/
def load_list (db : DBState) (cat : String) :
    List SrcFile → DBState × Option String
  | [] => (db, none)
  | f :: fs =>
      match load_one db cat f with
      | .ok db2 => load_list db2 cat fs
      | .error e => (db, some e)

/-- The `master_tables` instance attribute: category name to accumulated
file list, in the declared dict order. -/
abbrev MasterTables := List (String × List SrcFile)

/-- `master_tables` as initialized in `FinancePipeline.__init__`. -/
def init_master_tables : MasterTables :=
  [("actuals", []), ("commit_cc", []), ("commit_wbs", []),
   ("cost_center_details", []), ("wbs_budget", []),
   ("forecast_budget", []), ("forecast_live_estimate", []),
   ("forecast_pre_budget", []), ("forecast_trend", [])]

/-- Appending one classified file into its category's list. -/
def classify_into (mt : MasterTables) (f : SrcFile) : MasterTables :=
  mt.map fun p => if p.1 = classify_file f.name then (p.1, p.2 ++ [f]) else p

/-- Step 2 of `run_import`: categorize each new file. -/
def classify_all (mt : MasterTables) (fs : List SrcFile) : MasterTables :=
  fs.foldl classify_into mt

/-- `get_new_files`: drop files whose name is already ledgered. -/
def get_new_files (db : DBState) (fs : List SrcFile) : List SrcFile :=
  fs.filter fun f => !(db.ledger.contains f.name)

/-- A `FinancePipeline` instance together with its database: the
`master_tables` lists persist (and accumulate) across `run_import`
calls. -/
structure PipeState where
  db : DBState
  masterTables : MasterTables
deriving Repr

/-- Step 3 of `run_import`: process every bucket of files; an escaping
error stops the run, the remaining buckets are not processed. -/
def process_master_tables (db : DBState) :
    MasterTables → DBState × Option String
  | [] => (db, none)
  | p :: mt =>
      match load_list db p.1 p.2 with
      | (db2, none) => process_master_tables db2 mt
      | (db2, some e) => (db2, some e)

/-- `run_import` (src/pipe.py lines 251-344): ledger bootstrap, new-file
filter, early return when nothing is new, classification into the
accumulating `master_tables` (which completes before any loading starts),
then per-file loading. The second component is the uncaught error when
the run aborted; the first holds everything committed up to that point,
since each completed file was committed individually. -/
def run_import (ps : PipeState) (dataFiles : List SrcFile) :
    PipeState × Option String :=
  let filesToProcess := get_new_files ps.db dataFiles
  if filesToProcess = [] then (ps, none)
  else
    let mt := classify_all ps.masterTables filesToProcess
    let res := process_master_tables ps.db mt
    ({ db := res.1, masterTables := mt }, res.2)

/-- A fresh pipeline over an empty database. -/
def init_pipe_state : PipeState :=
  { db := { ledger := [], tables := [] }, masterTables := init_master_tables }

/-- Arbitrarily many pipeline invocations, each with its own batch of
candidate files. Committed state persists across an aborted invocation
(each file's work was its own transaction), so the next invocation starts
from whatever the previous one reached. -/
def run_batches (ps : PipeState) : List (List SrcFile) → PipeState
  | [] => ps
  | b :: t => run_batches (run_import ps b).1 t

/-- All rows stored anywhere in staging for a given source filename. -/
def staged_rows (ts : Tables) (n : String) : List StagedRow :=
  (ts.map fun p => p.2.filter fun r => r.1 == n).flatten

/-- The rows of a file as they appear once staged. -/
def tag (n : String) (rs : List Nat) : List StagedRow :=
  rs.map fun v => (n, v)

/-! ### The per-file load step -/

/-- The committed database after a successful load of `f` into `cat`. -/
def commit_state (db : DBState) (cat : String) (f : SrcFile) : DBState :=
  { ledger := db.ledger ++ [f.name],
    tables :=
      insert_into (create_table_if_not_exists db.tables cat) cat
        (tag f.name f.rows) }

/-- The database after a parseable file's unit ran: unchanged when the
filename is already ledgered (the ledger insert failed and the handler
rolled the transaction back), committed otherwise. -/
def after_file (db : DBState) (cat : String) (f : SrcFile) : DBState :=
  if f.name ∈ db.ledger then db else commit_state db cat f

/-! ### The database invariant

`R` fixes the rows each filename carries (ingesting "the same file"
means the same name always comes with the same rows). The invariant ties
the staging tables to the ledger: a ledgered file's rows are staged
exactly once, an unledgered file has no staged rows at all.
-/

structure DBInv (R : String → List Nat) (db : DBState) : Prop where
  ledger_nodup : db.ledger.Nodup
  keys_nodup : (tableKeys db.tables).Nodup
  staged_eq : ∀ n : String,
    staged_rows db.tables n = if n ∈ db.ledger then tag n (R n) else []

/-- All files sitting in the `master_tables` buckets. -/
def mt_files (mt : MasterTables) : List SrcFile :=
  (mt.map (·.2)).flatten

/-! ### The pipeline invariant and run_import -/

structure PInv (R : String → List Nat) (ps : PipeState) : Prop where
  dbinv : DBInv R ps.db
  mt_rows : ∀ f ∈ mt_files ps.masterTables, f.rows = R f.name
  mt_keys : ps.masterTables.map (·.1) = init_master_tables.map (·.1)

/-- The data file used by the C1 witness. -/
def fileA : SrcFile :=
  { name := "jan_ccdet.csv", rows := [1, 2], parseOk := true }

/-- Database state used by the C2 witness: `dup.csv` is already ledgered
and staged. -/
def dupDB : DBState :=
  { ledger := ["dup.csv"], tables := [("actuals", [("dup.csv", 7)])] }

/-- Re-offered copy of the already-ledgered file. -/
def dupFile : SrcFile :=
  { name := "dup.csv", rows := [7], parseOk := true }

/-- A fresh file processed after the failing one. -/
def freshFile : SrcFile :=
  { name := "feb.csv", rows := [9], parseOk := true }

/-- A file whose read into a typed frame raises (pre-transaction
failure). -/
def badFile : SrcFile :=
  { name := "mar_ccdet.csv", rows := [], parseOk := false }

/-- A valid file offered after the unparseable one in the same batch. -/
def goodFile : SrcFile :=
  { name := "apr_ccdet.csv", rows := [3], parseOk := true }

/-! ## Theorems -/

/-- C7: classification applies the ordered substring predicates to the
lower-cased filename with first match winning, in the precedence
ccdet, commit_cc, commit_wbs, wbs_budget, _le_, _prebud_, _bud_, _t0,
default actuals; a filename containing both "commit_cc" and "ccdet"
classifies as cost_center_details, and a filename matching no pattern
classifies as actuals. -/
theorem classifier_precedence :
    (∀ fname : String, classify_file fname = first_match_route fname) ∧
    (∀ fname : String,
      strHasSub (strLower fname) "commit_cc" = true →
      strHasSub (strLower fname) "ccdet" = true →
      classify_file fname = "cost_center_details") ∧
    (∀ fname : String,
      (∀ p ∈ ROUTING_RULES.map Prod.fst, strHasSub (strLower fname) p = false) →
      classify_file fname = "actuals") := by
  refine ⟨fun fname => ?_, fun fname hcc hdet => ?_, fun fname hnone => ?_⟩
  · simp only [classify_file, first_match_route, ROUTING_RULES,
      first_match_route_aux]
  · simp only [classify_file, hdet, if_true]
  · have h1 := hnone "ccdet" (by simp [ROUTING_RULES])
    have h2 := hnone "commit_cc" (by simp [ROUTING_RULES])
    have h3 := hnone "commit_wbs" (by simp [ROUTING_RULES])
    have h4 := hnone "wbs_budget" (by simp [ROUTING_RULES])
    have h5 := hnone "_le_" (by simp [ROUTING_RULES])
    have h6 := hnone "_prebud_" (by simp [ROUTING_RULES])
    have h7 := hnone "_bud_" (by simp [ROUTING_RULES])
    have h8 := hnone "_t0" (by simp [ROUTING_RULES])
    simp only [classify_file, h1, h2, h3, h4, h5, h6, h7, h8,
      Bool.false_eq_true, if_false]

/-- C7 witness: concrete filenames exercising the precedence conjunct and
the catch-all conjunct. -/
theorem classifier_precedence_witness :
    classify_file "Report_commit_cc_ccdet_2024.csv" = "cost_center_details" ∧
    classify_file "plain_extract.csv" = "actuals" := by
  constructor
  · exact classifier_precedence.2.1 "Report_commit_cc_ccdet_2024.csv"
      (by decide) (by decide)
  · exact classifier_precedence.2.2 "plain_extract.csv" (by decide)

/-- C4: the fiscal-type branches are evaluated in order and the first
matching branch wins — WBS Element Code present gives "WBS"; else Cost
Center Code present or Partner Cost Center Code present gives
"COST CENTER"; else WBS Element Code absent and Product Code present
gives "NO WBS"; else "FINANCE" — and exactly one of the four values is
assigned: the `np.select` call equals that ordered if-chain. -/
theorem fiscal_type_first_match :
    (∀ r : Row,
      determine_fiscal_type_row r =
        if r.wbsElementCode.isSome then "WBS"
        else if r.costCenterCode.isSome || r.partnerCostCenterCode.isSome then
          "COST CENTER"
        else if r.wbsElementCode.isNone && r.productCode.isSome then "NO WBS"
        else "FINANCE") ∧
    (∀ r : Row,
      determine_fiscal_type_row r = "WBS" ∨
      determine_fiscal_type_row r = "COST CENTER" ∨
      determine_fiscal_type_row r = "NO WBS" ∨
      determine_fiscal_type_row r = "FINANCE") ∧
    (∀ rows : List Row,
      determine_fiscal_type rows =
        rows.map fun r =>
          { r with fiscalType := some (determine_fiscal_type_row r) }) := by
  refine ⟨fun r => rfl, fun r => ?_, fun rows => rfl⟩
  simp only [determine_fiscal_type_row, determine_fiscal_type_conds, npSelect]
  split
  · exact Or.inl rfl
  · split
    · exact Or.inr (Or.inl rfl)
    · split
      · exact Or.inr (Or.inr (Or.inl rfl))
      · exact Or.inr (Or.inr (Or.inr rfl))

/-- C6: after the left join on WBS Element Code, the WBS-derived G/L
account and profit center override the raw values exactly where the
WBS-derived value is non-null, and the raw value is retained exactly where
the WBS-derived value is null. -/
theorem wbs_override_fillna (wbsTab : List WbsEntry) (r : Row) :
    (∀ v, (wbs_joined wbsTab r).bind (·.wbsGlAccount) = some v →
      (get_wbs_attributes_row wbsTab r).glAccount = some v) ∧
    ((wbs_joined wbsTab r).bind (·.wbsGlAccount) = none →
      (get_wbs_attributes_row wbsTab r).glAccount = r.glAccount) ∧
    (∀ v, (wbs_joined wbsTab r).bind (·.wbsProfitCenterCode) = some v →
      (get_wbs_attributes_row wbsTab r).profitCenterCode = some v) ∧
    ((wbs_joined wbsTab r).bind (·.wbsProfitCenterCode) = none →
      (get_wbs_attributes_row wbsTab r).profitCenterCode =
        r.profitCenterCode) := by
  refine ⟨fun v hv => ?_, fun hn => ?_, fun v hv => ?_, fun hn => ?_⟩
  · simp only [get_wbs_attributes_row, fillna, hv]
  · simp only [get_wbs_attributes_row, fillna, hn]
  · simp only [get_wbs_attributes_row, fillna, hv]
  · simp only [get_wbs_attributes_row, fillna, hn]

/-- C6 witness: a record whose WBS code maps to a non-null WBS G/L account
but a null WBS profit center — the G/L is overridden, the profit center is
retained. -/
theorem wbs_override_fillna_witness :
    (get_wbs_attributes_row
      [{ wbsElementCode := "W1", wbsGlAccount := some 4000,
         wbsProfitCenterCode := none, wbsTypeChar := some "W" }]
      { wbsElementCode := some "W1", glAccount := some 1000,
        profitCenterCode := some "PC9" }).glAccount = some 4000 ∧
    (get_wbs_attributes_row
      [{ wbsElementCode := "W1", wbsGlAccount := some 4000,
         wbsProfitCenterCode := none, wbsTypeChar := some "W" }]
      { wbsElementCode := some "W1", glAccount := some 1000,
        profitCenterCode := some "PC9" }).profitCenterCode = some "PC9" := by
  constructor
  · exact (wbs_override_fillna _ _).1 4000 (by decide)
  · exact (wbs_override_fillna _ _).2.2.2 (by decide)

/-- C8: a `gl_to_compass` reference table containing two compass codes for
the same G/L account — or any other violation of the declared one-to-one
cardinality — makes the GL-to-compass resolver raise a schema-integrity
failure instead of returning a joined frame. -/
theorem gl_compass_one_to_one_raises (gl_accounts : List GlAccountRow)
    (gl_to_compass : List (Int × String))
    (hdup : ¬ (gl_to_compass.map (·.1)).Nodup ∨
      ¬ (gl_accounts.map (·.glAccount)).Nodup) :
    link_gl_to_compass gl_accounts gl_to_compass =
      .error "MergeError: Merge keys are not unique, not a one-to-one merge"
      := by
  unfold link_gl_to_compass
  rcases hdup with h | h <;>
    simp only [ite_eq_right_iff, and_imp] <;> intro h1 h2 <;> exact absurd ‹_› h

/-- C8 witness: the table mapping G/L account 5000 to two different
compass codes makes the resolver raise. -/
theorem gl_compass_one_to_one_raises_witness :
    link_gl_to_compass [{ glAccount := 5000, longText := none }]
      [(5000, "C1"), (5000, "C2")] =
      .error "MergeError: Merge keys are not unique, not a one-to-one merge"
      := by
  exact gl_compass_one_to_one_raises _ _ (Or.inl (by decide))

/-- C3: evaluation of the compass-code resolution at a row whose G/L
account maps to compass code "A" while its cost center maps to compass
code "B". The claim (and the source's own business-logic comment,
src/pipe.py lines 713-715) requires the non-null G/L-derived code "A" to
be final, but `Compass Code = Compass Code.fillna(G/L Compass Code)`
(lines 391, 482, 574) keeps the cost-center-derived "B" in all three
transformations: the code resolves cost-center-first, not G/L-first. -/
theorem compass_cc_precedence_eval :
    lookupGlCompass compassClashMeta.glToCompass 100 = some "A" ∧
    (make_gold_actuals_enrich_row compassClashMeta
      compassClashRow).compassCode = some "B" ∧
    (make_gold_cc_details_row compassClashMeta
      compassClashRow).compassCode = some "B" ∧
    (make_gold_commit_cc_row compassClashMeta
      compassClashRow).compassCode = some "B" := by
  refine ⟨rfl, rfl, rfl, rfl⟩

/-- C5: in the actuals transformation, a record whose WBS Type Char is
"M" is classified as if its WBS Element Code were absent (so it never
takes the "WBS" branch), the original WBS Element Code appears unchanged
in the output, and records whose WBS Type Char is not "M" go through the
normal classification; the maker splits exactly on `WBS Type Char == "M"`
and concatenates the carved-out side first. -/
theorem actuals_m_carveout (meta : TransMeta) (rows : List Row) :
    (∀ r : Row, r.wbsTypeChar = some "M" →
      make_gold_actuals_m_row r
        = { r with fiscalType := some (determine_fiscal_type_row (clear_wbs r)) } ∧
      (make_gold_actuals_m_row r).wbsElementCode = r.wbsElementCode ∧
      determine_fiscal_type_row (clear_wbs r) ≠ "WBS") ∧
    make_gold_actuals meta rows =
      ((rows.map (make_gold_actuals_enrich_row meta)).filter
        (fun r => r.wbsTypeChar == some "M")).map make_gold_actuals_m_row ++
      determine_fiscal_type
        ((rows.map (make_gold_actuals_enrich_row meta)).filter
          (fun r => !(r.wbsTypeChar == some "M"))) := by
  refine ⟨fun r _ => ⟨rfl, rfl, ?_⟩, rfl⟩
  simp only [clear_wbs, determine_fiscal_type_row, determine_fiscal_type_conds,
    npSelect, Option.isSome_none, Bool.false_eq_true, if_false]
  split
  · decide
  · split <;> decide

/-- C5 witness: the carve-out applied to `mCarveRow` classifies it by the
non-WBS path and leaves its WBS Element Code unchanged. -/
theorem actuals_m_carveout_witness :
    make_gold_actuals_m_row mCarveRow
      = { mCarveRow with fiscalType := some (determine_fiscal_type_row (clear_wbs mCarveRow)) } ∧
    (make_gold_actuals_m_row mCarveRow).wbsElementCode =
      mCarveRow.wbsElementCode ∧
    determine_fiscal_type_row (clear_wbs mCarveRow) ≠ "WBS" :=
  (actuals_m_carveout emptyTransMeta []).1 mCarveRow rfl

/-- C10: in both committed-cost gold makers every column whose lower-cased
name contains "date" is parsed with the single fixed format %m/%d/%Y and
every other column is untouched; text not matching the format — including
a well-formed ISO date — becomes null (`Option.none`) rather than a
parsed value or an error, while matching text parses month-first. -/
theorem commit_date_fixed_format_coerce :
    (∀ (meta : TransMeta) (r : Row),
      (make_gold_commit_wbs_row meta r).cells = r.cells.map fun p =>
        (p.1, if strHasSub (strLower p.1) "date" then coerce_date_cell p.2
          else p.2)) ∧
    (∀ (meta : TransMeta) (r : Row),
      (make_gold_commit_cc_row meta r).cells = r.cells.map fun p =>
        (p.1, if strHasSub (strLower p.1) "date" then coerce_date_cell p.2
          else p.2)) ∧
    (∀ s : String, coerce_date_cell (.text s) = .date (parseDateMDY s)) ∧
    parseDateMDY "2024-03-01" = none ∧
    parseDateMDY "2024/03/01" = none ∧
    parseDateMDY "02/30/2024" = none ∧
    parseDateMDY "03/14/2024" =
      some { year := 2024, month := 3, day := 14 } := by
  exact ⟨fun meta r => rfl, fun meta r => rfl, fun s => rfl,
    by decide, by decide, by decide, by decide⟩

/-- C9 counterexample: with a non-empty `forecast_budget` staging table
the transformation produces no gold record at all — in particular none
stamped "Budget" — because `run_transformation` never reads the budget and
forecast staging categories and no "Unknown" stamping exists. -/
theorem scenario_budget_never_stamped_counterexample :
    budgetOnlyState.forecast_budget ≠ [] ∧
    run_transformation_gold emptyTransMeta budgetOnlyState = [] := by
  exact ⟨by decide, rfl⟩

/-- C9 amended: every gold record carries exactly one Scenario value and
it is drawn from {Actuals, Cost Center Details, Committed}; the budget and
forecast staging categories are never read by the transformation, so no
Budget / Live Estimate / Pre-Budget / Trend / Unknown stamping occurs. -/
theorem scenario_three_values (meta : TransMeta) (st : StagingFrames) :
    ∀ g ∈ run_transformation_gold meta st,
      g.scenario = some "Actuals" ∨ g.scenario = some "Cost Center Details" ∨
      g.scenario = some "Committed" := by
  intro g hg
  simp only [run_transformation_gold, List.mem_append] at hg
  rcases hg with (hg | hg) | hg
  · left
    simp only [make_gold_actuals, List.mem_append] at hg
    rcases hg with hg | hg
    · obtain ⟨x, hx, rfl⟩ := List.mem_map.mp hg
      obtain ⟨y, _, rfl⟩ := List.mem_map.mp (List.mem_filter.mp hx).1
      rfl
    · simp only [determine_fiscal_type] at hg
      obtain ⟨x, hx, rfl⟩ := List.mem_map.mp hg
      obtain ⟨y, _, rfl⟩ := List.mem_map.mp (List.mem_filter.mp hx).1
      rfl
  · right; left
    simp only [make_gold_cc_details, determine_fiscal_type] at hg
    obtain ⟨x, hx, rfl⟩ := List.mem_map.mp hg
    obtain ⟨y, _, rfl⟩ := List.mem_map.mp hx
    rfl
  · right; right
    obtain ⟨x, _, rfl⟩ := List.mem_map.mp hg
    rfl

/-- C9 amended witness: the gold record produced from a single empty
actuals staging record carries scenario "Actuals". -/
theorem scenario_three_values_witness :
    ({ scenario := some "Actuals", fiscalType := some "FINANCE" } : Row).scenario
        = some "Actuals" ∨
    ({ scenario := some "Actuals", fiscalType := some "FINANCE" } : Row).scenario
        = some "Cost Center Details" ∨
    ({ scenario := some "Actuals", fiscalType := some "FINANCE" } : Row).scenario
        = some "Committed" :=
  scenario_three_values emptyTransMeta { actuals := [{}] }
    { scenario := some "Actuals", fiscalType := some "FINANCE" } (by decide)

/-! ### Staging-table lemmas -/

theorem tableKeys_cons (p : String × List StagedRow) (ts : Tables) :
    tableKeys (p :: ts) = p.1 :: tableKeys ts := rfl

theorem staged_rows_cons (p : String × List StagedRow) (ts : Tables)
    (n : String) :
    staged_rows (p :: ts) n =
      p.2.filter (fun r => r.1 == n) ++ staged_rows ts n := rfl

theorem staged_rows_append (ts us : Tables) (n : String) :
    staged_rows (ts ++ us) n = staged_rows ts n ++ staged_rows us n := by
  simp [staged_rows]

theorem staged_rows_create (ts : Tables) (cat n : String) :
    staged_rows (create_table_if_not_exists ts cat) n = staged_rows ts n := by
  unfold create_table_if_not_exists
  split
  · rfl
  · simp [staged_rows_append, staged_rows]

theorem tableKeys_insert_into (ts : Tables) (cat : String)
    (rs : List StagedRow) :
    tableKeys (insert_into ts cat rs) = tableKeys ts := by
  unfold tableKeys insert_into
  rw [List.map_map]
  refine List.map_congr_left fun p _ => ?_
  by_cases h : p.1 = cat <;> simp [h]

theorem insert_into_cons (p : String × List StagedRow) (ts : Tables)
    (cat : String) (rs : List StagedRow) :
    insert_into (p :: ts) cat rs =
      (if p.1 = cat then (p.1, p.2 ++ rs) else p) :: insert_into ts cat rs :=
  rfl

theorem mem_tableKeys_create (ts : Tables) (cat : String) :
    cat ∈ tableKeys (create_table_if_not_exists ts cat) := by
  unfold create_table_if_not_exists
  split
  · next h =>
    simp only [List.any_eq_true, beq_iff_eq] at h
    obtain ⟨p, hp, rfl⟩ := h
    exact List.mem_map_of_mem _ hp
  · simp [tableKeys]

theorem nodup_tableKeys_create (ts : Tables) (cat : String)
    (h : (tableKeys ts).Nodup) :
    (tableKeys (create_table_if_not_exists ts cat)).Nodup := by
  unfold create_table_if_not_exists
  split
  · exact h
  · next hany =>
    have hnot : cat ∉ tableKeys ts := by
      intro hc
      obtain ⟨p, hp, he⟩ := List.mem_map.mp hc
      exact hany (List.any_eq_true.mpr ⟨p, hp, beq_iff_eq.mpr he⟩)
    have : tableKeys (ts ++ [(cat, [])]) = tableKeys ts ++ [cat] := by
      simp [tableKeys]
    rw [this, List.nodup_append]
    refine ⟨h, List.nodup_singleton cat, fun a ha hc => ?_⟩
    rw [List.mem_singleton] at hc
    exact hnot (hc ▸ ha)

theorem insert_into_not_mem (cat : String) (rs : List StagedRow) :
    ∀ ts : Tables, cat ∉ tableKeys ts → insert_into ts cat rs = ts := by
  intro ts
  induction ts with
  | nil => intro _; rfl
  | cons p t ih =>
    intro h
    rw [tableKeys_cons, List.mem_cons] at h
    push_neg at h
    rw [insert_into_cons, if_neg (fun hc => h.1 hc.symm), ih h.2]

theorem staged_rows_insert_ne (cat n : String) (rs : List StagedRow)
    (h : ∀ r ∈ rs, r.1 ≠ n) :
    ∀ ts : Tables,
      staged_rows (insert_into ts cat rs) n = staged_rows ts n := by
  have hf : rs.filter (fun r => r.1 == n) = [] :=
    List.filter_eq_nil_iff.mpr fun r hr => by simp [h r hr]
  intro ts
  induction ts with
  | nil => rfl
  | cons p t ih =>
    rw [insert_into_cons, staged_rows_cons, staged_rows_cons, ih]
    by_cases hp : p.1 = cat
    · rw [if_pos hp]
      simp [List.filter_append, hf]
    · rw [if_neg hp]

theorem staged_rows_insert_self (cat n : String) (rs : List StagedRow)
    (hall : ∀ r ∈ rs, r.1 = n) :
    ∀ ts : Tables, (tableKeys ts).Nodup → cat ∈ tableKeys ts →
      staged_rows ts n = [] →
      staged_rows (insert_into ts cat rs) n = rs := by
  have hfr : rs.filter (fun r => r.1 == n) = rs :=
    List.filter_eq_self.mpr fun r hr => by simp [hall r hr]
  intro ts
  induction ts with
  | nil => intro _ hmem _; simp [tableKeys] at hmem
  | cons p t ih =>
    intro hnodup hmem hempty
    rw [tableKeys_cons] at hnodup hmem
    rw [staged_rows_cons] at hempty
    obtain ⟨h1, h2⟩ := List.append_eq_nil.mp hempty
    rw [insert_into_cons, staged_rows_cons]
    by_cases hp : p.1 = cat
    · have hnot : cat ∉ tableKeys t := by
        rw [← hp]
        exact (List.nodup_cons.mp hnodup).1
      rw [if_pos hp, insert_into_not_mem cat rs t hnot, h2]
      simp [List.filter_append, h1, hfr]
    · have hmem2 : cat ∈ tableKeys t := by
        rcases List.mem_cons.mp hmem with hc | hc
        · exact absurd hc.symm hp
        · exact hc
      rw [if_neg hp, h1,
        ih (List.nodup_cons.mp hnodup).2 hmem2 h2,
        List.nil_append]

theorem load_one_eq (db : DBState) (cat : String) (f : SrcFile) :
    load_one db cat f =
      if f.parseOk = true then .ok (after_file db cat f)
      else .error no_txn_rollback_msg := by
  unfold load_one transaction_unit parse_file insert_ledger after_file
    commit_state tag
  by_cases hp : f.parseOk
  · simp only [hp, if_true]
    by_cases hm : f.name ∈ db.ledger
    · simp [hm]
    · simp [hm]
  · simp [hp]

theorem after_file_ledger_mono (db : DBState) (cat : String) (f : SrcFile)
    (m : String) (h : m ∈ db.ledger) : m ∈ (after_file db cat f).ledger := by
  unfold after_file
  split
  · exact h
  · simp [commit_state, h]

theorem after_file_mem_self (db : DBState) (cat : String) (f : SrcFile) :
    f.name ∈ (after_file db cat f).ledger := by
  unfold after_file
  split
  · assumption
  · simp [commit_state]

theorem after_file_DBInv {R : String → List Nat} {db : DBState}
    {cat : String} {f : SrcFile} (hrows : f.rows = R f.name)
    (h : DBInv R db) : DBInv R (after_file db cat f) := by
  unfold after_file
  split
  · exact h
  · next hm =>
    refine ⟨?_, ?_, ?_⟩
    · simp only [commit_state, List.nodup_append]
      exact ⟨h.ledger_nodup, List.nodup_singleton _, fun a ha hc => by
        rw [List.mem_singleton] at hc
        exact hm (hc ▸ ha)⟩
    · simp only [commit_state]
      rw [tableKeys_insert_into]
      exact nodup_tableKeys_create _ _ h.keys_nodup
    · intro m
      simp only [commit_state]
      by_cases hmn : m = f.name
      · rw [hmn]
        have hempty :
            staged_rows (create_table_if_not_exists db.tables cat) f.name
              = [] := by
          rw [staged_rows_create]
          have hs := h.staged_eq f.name
          rwa [if_neg hm] at hs
        rw [staged_rows_insert_self cat f.name (tag f.name f.rows)
            (fun r hr => by
              obtain ⟨v, _, rfl⟩ := List.mem_map.mp hr
              rfl)
            _ (nodup_tableKeys_create _ _ h.keys_nodup)
            (mem_tableKeys_create _ _) hempty]
        rw [if_pos (by simp), hrows]
      · rw [staged_rows_insert_ne cat m (tag f.name f.rows)
            (fun r hr => by
              obtain ⟨v, _, rfl⟩ := List.mem_map.mp hr
              exact fun hc => hmn hc.symm),
          staged_rows_create, h.staged_eq m]
        have hiff : (m ∈ db.ledger ++ [f.name]) ↔ (m ∈ db.ledger) := by
          simp [hmn]
        by_cases hin : m ∈ db.ledger
        · rw [if_pos hin, if_pos (hiff.mpr hin)]
        · rw [if_neg hin, if_neg (fun hc => hin (hiff.mp hc))]

/-! ### The per-category and per-bucket loops -/

theorem load_list_cons_ok (db : DBState) (cat : String) {g : SrcFile}
    (t : List SrcFile) (hp : g.parseOk = true) :
    load_list db cat (g :: t) = load_list (after_file db cat g) cat t := by
  simp [load_list, load_one_eq, hp]

theorem load_list_cons_abort (db : DBState) (cat : String) {g : SrcFile}
    (t : List SrcFile) (hp : g.parseOk = false) :
    load_list db cat (g :: t) = (db, some no_txn_rollback_msg) := by
  simp [load_list, load_one_eq, hp]

theorem load_list_DBInv {R : String → List Nat} (cat : String)
    (fs : List SrcFile) :
    ∀ {db : DBState}, (∀ f ∈ fs, f.rows = R f.name) → DBInv R db →
      DBInv R (load_list db cat fs).1 := by
  induction fs with
  | nil => intro db _ h; exact h
  | cons g t ih =>
    intro db hall h
    by_cases hp : g.parseOk
    · rw [load_list_cons_ok db cat t hp]
      exact ih (fun f hf => hall f (List.mem_cons_of_mem _ hf))
        (after_file_DBInv (hall g (List.mem_cons_self _ _)) h)
    · rw [load_list_cons_abort db cat t (by simpa using hp)]
      exact h

theorem load_list_ledger_mono (cat : String) (fs : List SrcFile) :
    ∀ {db : DBState} {m : String}, m ∈ db.ledger →
      m ∈ (load_list db cat fs).1.ledger := by
  induction fs with
  | nil => intro _ _ h; exact h
  | cons g t ih =>
    intro db m h
    by_cases hp : g.parseOk
    · rw [load_list_cons_ok db cat t hp]
      exact ih (after_file_ledger_mono _ _ _ _ h)
    · rw [load_list_cons_abort db cat t (by simpa using hp)]
      exact h

theorem load_list_ok (cat : String) (fs : List SrcFile) :
    ∀ {db : DBState}, (∀ g ∈ fs, g.parseOk = true) →
      (load_list db cat fs).2 = none := by
  induction fs with
  | nil => intro _ _; rfl
  | cons g t ih =>
    intro db hall
    rw [load_list_cons_ok db cat t (hall g (List.mem_cons_self _ _))]
    exact ih fun x hx => hall x (List.mem_cons_of_mem _ hx)

theorem load_list_mem (cat : String) (fs : List SrcFile) :
    ∀ {db : DBState} {f : SrcFile}, (∀ g ∈ fs, g.parseOk = true) →
      f ∈ fs → f.name ∈ (load_list db cat fs).1.ledger := by
  induction fs with
  | nil => intro _ _ _ h; cases h
  | cons g t ih =>
    intro db f hall hf
    rw [load_list_cons_ok db cat t (hall g (List.mem_cons_self _ _))]
    rcases List.mem_cons.mp hf with rfl | hf2
    · exact load_list_ledger_mono _ _ (after_file_mem_self _ _ _)
    · exact ih (fun x hx => hall x (List.mem_cons_of_mem _ hx)) hf2

theorem mt_files_cons (p : String × List SrcFile) (mt : MasterTables) :
    mt_files (p :: mt) = p.2 ++ mt_files mt := rfl

theorem process_DBInv {R : String → List Nat} (mt : MasterTables) :
    ∀ {db : DBState}, (∀ f ∈ mt_files mt, f.rows = R f.name) → DBInv R db →
      DBInv R (process_master_tables db mt).1 := by
  induction mt with
  | nil => intro _ _ h; exact h
  | cons p t ih =>
    intro db hall h
    have h1 : DBInv R (load_list db p.1 p.2).1 :=
      load_list_DBInv p.1 p.2
        (fun f hf => hall f
          (by rw [mt_files_cons]; exact List.mem_append_left _ hf)) h
    unfold process_master_tables
    rcases hl : load_list db p.1 p.2 with ⟨db2, err⟩
    rw [hl] at h1
    cases err with
    | none =>
      exact ih (fun f hf => hall f
        (by rw [mt_files_cons]; exact List.mem_append_right _ hf)) h1
    | some e => exact h1

theorem process_ledger_mono (mt : MasterTables) :
    ∀ {db : DBState} {m : String}, m ∈ db.ledger →
      m ∈ (process_master_tables db mt).1.ledger := by
  induction mt with
  | nil => intro _ _ h; exact h
  | cons p t ih =>
    intro db m h
    have h1 : m ∈ (load_list db p.1 p.2).1.ledger :=
      load_list_ledger_mono _ _ h
    unfold process_master_tables
    rcases hl : load_list db p.1 p.2 with ⟨db2, err⟩
    rw [hl] at h1
    cases err with
    | none => exact ih h1
    | some e => exact h1

theorem process_mem (mt : MasterTables) :
    ∀ {db : DBState} {f : SrcFile}, (∀ g ∈ mt_files mt, g.parseOk = true) →
      f ∈ mt_files mt → f.name ∈ (process_master_tables db mt).1.ledger := by
  induction mt with
  | nil => intro _ _ _ h; cases h
  | cons p t ih =>
    intro db f hall hf
    have hok : ∀ g ∈ p.2, g.parseOk = true := fun g hg =>
      hall g (by rw [mt_files_cons]; exact List.mem_append_left _ hg)
    have hnone : (load_list db p.1 p.2).2 = none := load_list_ok p.1 p.2 hok
    unfold process_master_tables
    rcases hl : load_list db p.1 p.2 with ⟨db2, err⟩
    rw [hl] at hnone
    cases err with
    | some e => simp at hnone
    | none =>
      rw [mt_files_cons] at hf
      rcases List.mem_append.mp hf with h1 | h2
      · have h3 := @load_list_mem p.1 p.2 db f hok h1
        rw [hl] at h3
        exact process_ledger_mono t h3
      · exact ih (fun g hg => hall g
          (by rw [mt_files_cons]; exact List.mem_append_right _ hg)) h2


/-! ### Classification into master_tables -/

theorem classify_into_cons (p : String × List SrcFile) (mt : MasterTables)
    (f : SrcFile) :
    classify_into (p :: mt) f =
      (if p.1 = classify_file f.name then (p.1, p.2 ++ [f]) else p) ::
        classify_into mt f := rfl

theorem classify_all_cons (mt : MasterTables) (g : SrcFile)
    (t : List SrcFile) :
    classify_all mt (g :: t) = classify_all (classify_into mt g) t := rfl

theorem classify_file_mem_init (nm : String) :
    classify_file nm ∈ init_master_tables.map (·.1) := by
  simp only [classify_file]
  split_ifs <;> decide

theorem mtKeys_classify_into (mt : MasterTables) (f : SrcFile) :
    (classify_into mt f).map (·.1) = mt.map (·.1) := by
  unfold classify_into
  rw [List.map_map]
  refine List.map_congr_left fun p _ => ?_
  by_cases h : p.1 = classify_file f.name <;> simp [h]

theorem mtKeys_classify_all (fs : List SrcFile) :
    ∀ mt : MasterTables, (classify_all mt fs).map (·.1) = mt.map (·.1) := by
  induction fs with
  | nil => intro _; rfl
  | cons g t ih =>
    intro mt
    rw [classify_all_cons, ih, mtKeys_classify_into]

theorem mt_files_classify_into_sub (f : SrcFile) :
    ∀ mt : MasterTables, ∀ g ∈ mt_files (classify_into mt f),
      g ∈ mt_files mt ∨ g = f := by
  intro mt
  induction mt with
  | nil => intro g hg; cases hg
  | cons p t ih =>
    intro g hg
    rw [classify_into_cons, mt_files_cons] at hg
    rcases List.mem_append.mp hg with h1 | h2
    · by_cases hp : p.1 = classify_file f.name
      · rw [if_pos hp] at h1
        rcases List.mem_append.mp h1 with ha | hb
        · exact Or.inl (by
            rw [mt_files_cons]; exact List.mem_append_left _ ha)
        · right; simpa using hb
      · rw [if_neg hp] at h1
        exact Or.inl (by
          rw [mt_files_cons]; exact List.mem_append_left _ h1)
    · rcases ih g h2 with ha | hb
      · exact Or.inl (by
          rw [mt_files_cons]; exact List.mem_append_right _ ha)
      · exact Or.inr hb

theorem mt_files_classify_into_mono (f : SrcFile) :
    ∀ mt : MasterTables, ∀ g ∈ mt_files mt,
      g ∈ mt_files (classify_into mt f) := by
  intro mt
  induction mt with
  | nil => intro g hg; cases hg
  | cons p t ih =>
    intro g hg
    rw [mt_files_cons] at hg
    rw [classify_into_cons, mt_files_cons]
    rcases List.mem_append.mp hg with h1 | h2
    · refine List.mem_append_left _ ?_
      by_cases hp : p.1 = classify_file f.name
      · rw [if_pos hp]; exact List.mem_append_left _ h1
      · rw [if_neg hp]; exact h1
    · exact List.mem_append_right _ (ih g h2)

theorem mem_mt_files_classify_into (f : SrcFile) :
    ∀ mt : MasterTables, classify_file f.name ∈ mt.map (·.1) →
      f ∈ mt_files (classify_into mt f) := by
  intro mt
  induction mt with
  | nil => intro h; simp at h
  | cons p t ih =>
    intro h
    rw [classify_into_cons, mt_files_cons]
    by_cases hp : p.1 = classify_file f.name
    · rw [if_pos hp]
      exact List.mem_append_left _
        (List.mem_append_right _ (List.mem_singleton_self f))
    · rw [if_neg hp]
      have h2 : classify_file f.name ∈ t.map (·.1) := by
        rw [List.map_cons, List.mem_cons] at h
        rcases h with hc | hc
        · exact absurd hc.symm hp
        · exact hc
      exact List.mem_append_right _ (ih h2)

theorem classify_all_sub (fs : List SrcFile) :
    ∀ (mt : MasterTables) (g : SrcFile), g ∈ mt_files (classify_all mt fs) →
      g ∈ mt_files mt ∨ g ∈ fs := by
  induction fs with
  | nil => intro _ g h; exact Or.inl h
  | cons x t ih =>
    intro mt g h
    rw [classify_all_cons] at h
    rcases ih _ g h with h1 | h2
    · rcases mt_files_classify_into_sub x mt g h1 with ha | hb
      · exact Or.inl ha
      · right; rw [hb]; exact List.mem_cons_self _ _
    · exact Or.inr (List.mem_cons_of_mem _ h2)

theorem classify_all_files_mono (fs : List SrcFile) :
    ∀ (mt : MasterTables) (g : SrcFile), g ∈ mt_files mt →
      g ∈ mt_files (classify_all mt fs) := by
  induction fs with
  | nil => intro _ _ h; exact h
  | cons x t ih =>
    intro mt g h
    rw [classify_all_cons]
    exact ih _ g (mt_files_classify_into_mono x mt g h)

theorem mem_classify_all (f : SrcFile) (fs : List SrcFile) :
    ∀ mt : MasterTables, f ∈ fs → classify_file f.name ∈ mt.map (·.1) →
      f ∈ mt_files (classify_all mt fs) := by
  induction fs with
  | nil => intro _ h _; cases h
  | cons x t ih =>
    intro mt hf hk
    rw [classify_all_cons]
    rcases List.mem_cons.mp hf with rfl | hf2
    · exact classify_all_files_mono t _ f (mem_mt_files_classify_into f mt hk)
    · exact ih _ hf2 (by rw [mtKeys_classify_into]; exact hk)

theorem init_PInv (R : String → List Nat) : PInv R init_pipe_state := by
  refine ⟨⟨List.nodup_nil, List.nodup_nil,
    fun n => by simp [staged_rows, init_pipe_state]⟩, ?_, rfl⟩
  intro f hf
  simp [mt_files, init_master_tables, init_pipe_state] at hf

theorem run_import_PInv {R : String → List Nat} (dataFiles : List SrcFile)
    {ps : PipeState} (hall : ∀ f ∈ dataFiles, f.rows = R f.name)
    (h : PInv R ps) : PInv R (run_import ps dataFiles).1 := by
  simp only [run_import]
  split
  · exact h
  · have hmtr : ∀ f ∈ mt_files
        (classify_all ps.masterTables (get_new_files ps.db dataFiles)),
        f.rows = R f.name := by
      intro f hf
      rcases classify_all_sub _ _ f hf with h1 | h2
      · exact h.mt_rows f h1
      · exact hall f (List.mem_of_mem_filter h2)
    exact ⟨process_DBInv _ hmtr h.dbinv, hmtr,
      by rw [mtKeys_classify_all]; exact h.mt_keys⟩

theorem run_import_ledger_mono (dataFiles : List SrcFile) {ps : PipeState}
    {m : String} (h : m ∈ ps.db.ledger) :
    m ∈ (run_import ps dataFiles).1.db.ledger := by
  simp only [run_import]
  split
  · exact h
  · exact process_ledger_mono _ h

theorem run_import_mt_files_ok (dataFiles : List SrcFile) {ps : PipeState}
    (hmt : ∀ f ∈ mt_files ps.masterTables, f.parseOk = true)
    (hnew : ∀ g ∈ dataFiles, g.parseOk = true) :
    ∀ f ∈ mt_files (run_import ps dataFiles).1.masterTables,
      f.parseOk = true := by
  simp only [run_import]
  split
  · exact hmt
  · intro f hf
    rcases classify_all_sub _ _ f hf with h1 | h2
    · exact hmt f h1
    · exact hnew f (List.mem_of_mem_filter h2)

theorem run_import_mem {R : String → List Nat} (dataFiles : List SrcFile)
    {ps : PipeState} (hps : PInv R ps)
    (hmt : ∀ f ∈ mt_files ps.masterTables, f.parseOk = true)
    (hnew : ∀ g ∈ dataFiles, g.parseOk = true) {f : SrcFile}
    (hf : f ∈ dataFiles) :
    f.name ∈ (run_import ps dataFiles).1.db.ledger := by
  by_cases hm : f.name ∈ ps.db.ledger
  · exact run_import_ledger_mono _ hm
  · have hin : f ∈ get_new_files ps.db dataFiles := by
      unfold get_new_files
      exact List.mem_filter.mpr ⟨hf, by simp [hm]⟩
    simp only [run_import]
    rw [if_neg (List.ne_nil_of_mem hin)]
    refine process_mem _ ?_ ?_
    · intro g hg
      rcases classify_all_sub _ _ g hg with h1 | h2
      · exact hmt g h1
      · exact hnew g (List.mem_of_mem_filter h2)
    · refine mem_classify_all f _ _ hin ?_
      rw [hps.mt_keys]
      exact classify_file_mem_init f.name

/-! ### Arbitrarily many invocations -/

theorem run_batches_cons (ps : PipeState) (b : List SrcFile)
    (t : List (List SrcFile)) :
    run_batches ps (b :: t) = run_batches (run_import ps b).1 t := rfl

theorem run_batches_PInv {R : String → List Nat}
    (batches : List (List SrcFile)) :
    ∀ {ps : PipeState}, (∀ f ∈ batches.flatten, f.rows = R f.name) →
      PInv R ps → PInv R (run_batches ps batches) := by
  induction batches with
  | nil => intro _ _ h; exact h
  | cons b t ih =>
    intro ps hall h
    rw [run_batches_cons]
    refine ih (fun f hf => hall f ?_) (run_import_PInv b
      (fun f hf => hall f ?_) h)
    · rw [List.flatten_cons]; exact List.mem_append_right _ hf
    · rw [List.flatten_cons]; exact List.mem_append_left _ hf

theorem run_batches_ledger_mono (batches : List (List SrcFile)) :
    ∀ {ps : PipeState} {m : String}, m ∈ ps.db.ledger →
      m ∈ (run_batches ps batches).db.ledger := by
  induction batches with
  | nil => intro _ _ h; exact h
  | cons b t ih =>
    intro ps m h
    rw [run_batches_cons]
    exact ih (run_import_ledger_mono _ h)

theorem run_batches_mem {R : String → List Nat}
    (batches : List (List SrcFile)) :
    ∀ {ps : PipeState}, PInv R ps →
      (∀ f ∈ mt_files ps.masterTables, f.parseOk = true) →
      (∀ f ∈ batches.flatten, f.rows = R f.name) →
      (∀ f ∈ batches.flatten, f.parseOk = true) →
      ∀ {b : List SrcFile} {f : SrcFile}, b ∈ batches → f ∈ b →
        f.name ∈ (run_batches ps batches).db.ledger := by
  induction batches with
  | nil => intro _ _ _ _ _ _ _ hb _; cases hb
  | cons b0 t ih =>
    intro ps hps hmt hall hok b f hb hf
    rw [run_batches_cons]
    have hok0 : ∀ g ∈ b0, g.parseOk = true := fun g hg =>
      hok g (by rw [List.flatten_cons]; exact List.mem_append_left _ hg)
    rcases List.mem_cons.mp hb with rfl | hb2
    · exact run_batches_ledger_mono t (run_import_mem b hps hmt hok0 hf)
    · refine ih (run_import_PInv b0 (fun g hg => hall g ?_) hps)
        (run_import_mt_files_ok b0 hmt hok0)
        (fun g hg => hall g ?_) (fun g hg => hok g ?_) hb2 hf
      · rw [List.flatten_cons]; exact List.mem_append_left _ hg
      · rw [List.flatten_cons]; exact List.mem_append_right _ hg
      · rw [List.flatten_cons]; exact List.mem_append_right _ hg

/-- C1: loading a staging table happens at most once per filename across
arbitrarily many pipeline invocations on the same instance (whose
master_tables lists accumulate), with the ingestion premise made
explicit: no filename is ever ledgered more than once; a filename that
has been ingested — ledgered — has its rows in staging exactly once and
its ledger entry exactly once, no matter how often the same file was
offered (twice in one batch, re-offered in later batches, or reprocessed
from the accumulated master_tables lists); and when every offered file
parses (so no pre-transaction failure aborts a batch, cf. C2) an offered
filename is indeed ingested. -/
theorem ledger_ingest_exactly_once (batches : List (List SrcFile))
    (R : String → List Nat) (n : String)
    (hcons : ∀ f ∈ batches.flatten, f.rows = R f.name)
    (hmem : ∃ b ∈ batches, ∃ f ∈ b, f.name = n) :
    (∀ m : String,
      (run_batches init_pipe_state batches).db.ledger.count m ≤ 1) ∧
    (n ∈ (run_batches init_pipe_state batches).db.ledger →
      (run_batches init_pipe_state batches).db.ledger.count n = 1 ∧
      staged_rows (run_batches init_pipe_state batches).db.tables n =
        tag n (R n)) ∧
    ((∀ f ∈ batches.flatten, f.parseOk = true) →
      n ∈ (run_batches init_pipe_state batches).db.ledger) := by
  have hinv := run_batches_PInv batches hcons (init_PInv R)
  refine ⟨fun m => List.nodup_iff_count_le_one.mp hinv.dbinv.ledger_nodup m,
    fun hn => ⟨List.count_eq_one_of_mem hinv.dbinv.ledger_nodup hn, ?_⟩,
    fun hok => ?_⟩
  · have hs := hinv.dbinv.staged_eq n
    rwa [if_pos hn] at hs
  · obtain ⟨b, hb, g, hg, rfl⟩ := hmem
    refine run_batches_mem batches (init_PInv R) ?_ hcons hok hb hg
    intro x hx
    simp [mt_files, init_master_tables, init_pipe_state] at hx

/-- C1 witness: the same file offered twice in one batch and again in a
later invocation is staged exactly once and ledgered exactly once. -/
theorem ledger_ingest_exactly_once_witness :
    (run_batches init_pipe_state [[fileA, fileA], [fileA]]).db.ledger.count
      "jan_ccdet.csv" = 1 ∧
    staged_rows
      (run_batches init_pipe_state [[fileA, fileA], [fileA]]).db.tables
      "jan_ccdet.csv" = tag "jan_ccdet.csv" [1, 2] :=
  (ledger_ingest_exactly_once [[fileA, fileA], [fileA]] (fun _ => [1, 2])
    "jan_ccdet.csv" (by decide)
    ⟨[fileA, fileA], by decide, fileA, by decide, rfl⟩).2.1 (by decide)

/-- C2: evaluation of the two failure regimes. Parsing runs before
`BEGIN TRANSACTION` (src/pipe.py lines 293-324), so a parse failure
reaches the except handler with no transaction open: its `ROLLBACK`
raises DuckDB's transaction-context error, nothing catches it, and the
whole batch aborts — with unparseable `mar_ccdet.csv` ahead of valid
`apr_ccdet.csv` in one batch, `run_import` ends with the uncaught error
and an empty ledger: the valid file was never loaded, contradicting the
claim that a per-file failure never aborts the batch. A failure inside
the transaction (the duplicate ledger insert) is, as the claim says,
rolled back cleanly and the loop does continue with the next file. -/
theorem parse_failure_aborts_batch_eval :
    load_one init_pipe_state.db "cost_center_details" badFile =
      .error no_txn_rollback_msg ∧
    (run_import init_pipe_state [badFile, goodFile]).2 =
      some no_txn_rollback_msg ∧
    (run_import init_pipe_state [badFile, goodFile]).1.db.ledger = [] ∧
    load_one dupDB "actuals" dupFile = .ok dupDB ∧
    load_list dupDB "actuals" [dupFile, freshFile] =
      load_list dupDB "actuals" [freshFile] := by
  exact ⟨rfl, by decide, by decide, rfl, rfl⟩


end ApWarehouse
